import Mathlib

/-!
Verification of the airs_mpa workflow core
==========================================

A shallow embedding of the parts of the `airs_mpa` Streamlit application that
the specification's claims are about:

* the resilient plan parser (`safe_load_plan`, `_mk_fallback_plan`,
  `extract_json_fragment` in `src/utils.py`), together with executable models
  of the Python library routines they call (`json.loads`,
  `ast.literal_eval`, `str.strip`/`lstrip`/`rstrip`, `str.splitlines` and the
  two regular expressions `JSON_RE` and `STEP_RE`);
* the hypothesis-refinement page state machine
  (`src/pages/03_Hypotheses_manager.py`);
* the plan-manager page state machine (`src/pages/04_Plan_manager.py`);
* the streaming transcript aggregator and run handler of
  (`src/pages/05_Plan_execution.py`) and the report-prompt builder of
  (`src/pages/06_Report_builder.py`).

Python values that flow through the parser are modelled by the inductive
type `Value` (JSON-like data); a Python function that may raise is modelled
with `Option`/`Except`, while a Python function that returns `None` on some
path returns `Value.null` there.
-/

set_option maxRecDepth 4096

/-- A Python/JSON-like value.  Numbers keep their source lexeme (the code
never does arithmetic on parsed numbers, it only passes them through), so
both ints and floats are represented faithfully without floating point. -/
inductive Value where
  | null : Value
  | bool (b : Bool) : Value
  | num (lexeme : String) : Value
  | str (s : String) : Value
  | list (items : List Value) : Value
  | dict (pairs : List (Value × Value)) : Value

/-- Python truthiness (`bool(v)`): `None`, `False`, numeric zero, the empty
string and empty containers are falsy. -/
def numIsZero (lexeme : String) : Bool :=
  let ds := lexeme.data.filter (fun c => c ≠ '-' ∧ c ≠ '+' ∧ c ≠ '.')
  let ds := ds.takeWhile (fun c => c ≠ 'e' ∧ c ≠ 'E')
  !ds.isEmpty && ds.all (fun c => c = '0')

/-- Python truthiness of a `Value`. -/
def Value.truthy : Value → Bool
  | .null => false
  | .bool b => b
  | .num l => !(numIsZero l)
  | .str s => !s.isEmpty
  | .list items => !items.isEmpty
  | .dict pairs => !pairs.isEmpty

/-- Python `dict[k]` lookup with a string key (last binding wins, as in a
Python dict built left-to-right). -/
def Value.getKey : Value → String → Option Value
  | .dict pairs, k =>
    pairs.foldl
      (fun acc kv =>
        match kv.1 with
        | .str s => if s = k then some kv.2 else acc
        | _ => acc)
      none
  | _, _ => none

/-! ## Python string helpers -/

/-- The ASCII whitespace characters stripped by Python's `str.strip()` and
matched by `\s` in its regular expressions. -/
def isPySpace (c : Char) : Bool :=
  c = ' ' ∨ c = '\t' ∨ c = '\n' ∨ c = '\r' ∨ c = '\x0b' ∨ c = '\x0c'

/-- `str.lstrip(chars)` on a character list. -/
def pyLStripChars (chars : List Char) (cs : List Char) : List Char :=
  cs.dropWhile (fun c => chars.contains c)

/-- `str.rstrip(chars)` on a character list. -/
def pyRStripChars (chars : List Char) (cs : List Char) : List Char :=
  (cs.reverse.dropWhile (fun c => chars.contains c)).reverse

/-- `str.strip()` (no argument: strip whitespace from both ends). -/
def pyStripList (cs : List Char) : List Char :=
  (cs.dropWhile isPySpace).reverse.dropWhile isPySpace |>.reverse

/-- `str.strip()` on a `String`. -/
def pyStrip (s : String) : String :=
  String.mk (pyStripList s.data)

/-- `str.isdigit` for ASCII, which is all `\d+` needs here. -/
def isAsciiDigit (c : Char) : Bool :=
  '0' ≤ c ∧ c ≤ '9'

/-- `str.splitlines()` restricted to the line boundaries that occur in this
application's data: `\n`, `\r\n`, `\r`, `\x0b`, `\x0c`.  Like Python, a
trailing newline does not produce a final empty line. -/
def pySplitlinesAux : List Char → List Char → List (List Char)
  | [], acc => if acc.isEmpty then [] else [acc.reverse]
  | '\r' :: '\n' :: rest, acc => acc.reverse :: pySplitlinesAux rest []
  | c :: rest, acc =>
    if c = '\n' ∨ c = '\r' ∨ c = '\x0b' ∨ c = '\x0c' then
      acc.reverse :: pySplitlinesAux rest []
    else
      pySplitlinesAux rest (c :: acc)

/-- `str.splitlines()` on a `String`. -/
def pySplitlines (s : String) : List (List Char) :=
  pySplitlinesAux s.data []

/-! ## The regular expressions of `src/utils.py`

`STEP_RE = re.compile(r"^(?:\d+\.\s+|[-*+]\s+)(.+)")` and
`JSON_RE = re.compile(r"\{[\s\S]*?\}")`. -/

/-- Match `\s+(.+)` against the rest of a line: at least one whitespace
character, then a non-empty remainder captured as group 1.  `.` does not
match a newline, and when the remainder is all whitespace the greedy `\s+`
backtracks one character so that `.+` can still match. -/
def stepMatchAfterMarker (rest : List Char) : Option (List Char) :=
  let ws := rest.takeWhile isPySpace
  let rem := rest.dropWhile isPySpace
  if ws.isEmpty then none
  else if rem.isEmpty then
    if 2 ≤ ws.length then some (ws.drop (ws.length - 1)) else none
  else
    some (rem.takeWhile (fun c => c ≠ '\n'))

/-- `STEP_RE.match(ln)`, returning `m.group(1)`: an enumerated
(`"<int>. "`) or bulleted (`"- "`, `"* "`, `"+ "`) list marker anchored at
the start of the line, with the rest of the line as group 1. -/
def stepMatch (cs : List Char) : Option (List Char) :=
  match cs with
  | [] => none
  | c :: rest =>
    if c = '-' ∨ c = '*' ∨ c = '+' then
      stepMatchAfterMarker rest
    else if isAsciiDigit c then
      let digits := rest.takeWhile isAsciiDigit
      match rest.drop digits.length with
      | '.' :: after => stepMatchAfterMarker after
      | _ => none
    else
      none

/-- Scan for the first `}` and return everything up to and including it
(the non-greedy `[\s\S]*?\}` part of `JSON_RE`). -/
def scanToCloseBrace : List Char → Option (List Char)
  | [] => none
  | c :: rest =>
    if c = '}' then some [c]
    else (scanToCloseBrace rest).map (fun tl => c :: tl)

/-- `JSON_RE.search(text)`: the first position holding a `{` that is
followed by a `}` starts the match, which extends to the first such `}`. -/
def jsonFragAux : List Char → Option (List Char)
  | [] => none
  | c :: rest =>
    if c = '{' then
      match scanToCloseBrace rest with
      | some mid => some ('{' :: mid)
      | none => jsonFragAux rest
    else
      jsonFragAux rest

/-- `extract_json_fragment` from `src/utils.py`: `JSON_RE.search(text)`,
returning the matched substring. -/
def extract_json_fragment (text : String) : Option String :=
  (jsonFragAux text.data).map String.mk

/-- `_mk_fallback_plan` from `src/utils.py`: derive a rough plan dict from
markdown bullet lines. -/
def mk_fallback_plan (text : String) : Value :=
  let lines := ((pySplitlines text).map pyStripList).filter (fun l => !l.isEmpty)
  let title :=
    match lines with
    | [] => "Analysis Plan".data
    | l0 :: _ => pyLStripChars "# ".data l0
  let steps := (lines.drop 1).filterMap (fun ln =>
    (stepMatch ln).map (fun g =>
      Value.dict [(Value.str "step", Value.str (String.mk (pyStripList g)))]))
  let steps :=
    if steps.isEmpty then [Value.dict [(Value.str "step", Value.str (pyStrip text))]] else steps
  Value.dict [(Value.str "analyses", Value.list
    [Value.dict [(Value.str "title", Value.str (String.mk title)),
                 (Value.str "steps", Value.list steps)]])]

/-! ## A model of `json.loads`

A recursive-descent parser for the JSON accepted by Python's `json.loads`:
objects, arrays, double-quoted strings with escapes, numbers
(`-?(?:0|[1-9]\d*)(\.\d+)?([eE][+-]?\d+)?`), `true`, `false`, `null`,
with `' '`, `\t`, `\n`, `\r` as inter-token whitespace and the whole input
consumed.  Success returns the parsed `Value`; `none` models a raised
`json.JSONDecodeError`.  Recursion is driven by a fuel argument that
strictly exceeds the number of parser invocations any input of the given
length can cause (each invocation consumes at least one character or
recurses into a strictly later suffix behind at least one consumed
character), so fuel exhaustion is unreachable from `json_loads`. -/

/-- JSON inter-token whitespace (`json.decoder.WHITESPACE`). -/
def isJsonWs (c : Char) : Bool :=
  c = ' ' ∨ c = '\t' ∨ c = '\n' ∨ c = '\r'

/-- Skip JSON whitespace. -/
def skipJsonWs (cs : List Char) : List Char :=
  cs.dropWhile isJsonWs

/-- Parse the hex digits of a `\uXXXX` escape. -/
def hexVal (c : Char) : Option Nat :=
  if isAsciiDigit c then some (c.toNat - '0'.toNat)
  else if 'a' ≤ c ∧ c ≤ 'f' then some (c.toNat - 'a'.toNat + 10)
  else if 'A' ≤ c ∧ c ≤ 'F' then some (c.toNat - 'A'.toNat + 10)
  else none

/-- Parse the body of a JSON string after the opening quote, returning the
string contents and the characters after the closing quote.  Escapes
`\" \\ \/ \b \f \n \r \t \uXXXX` are decoded; an unescaped control
character or an unterminated string is an error (strict mode). -/
def jsonString : List Char → Option (List Char × List Char)
  | [] => none
  | c :: rest =>
    if c = '"' then some ([], rest)
    else if c = '\\' then
      match rest with
      | [] => none
      | e :: rest2 =>
        let simpleEsc : Option Char :=
          if e = '"' then some '"'
          else if e = '\\' then some '\\'
          else if e = '/' then some '/'
          else if e = 'b' then some '\x08'
          else if e = 'f' then some '\x0c'
          else if e = 'n' then some '\n'
          else if e = 'r' then some '\r'
          else if e = 't' then some '\t'
          else none
        match simpleEsc with
        | some d => (jsonString rest2).map (fun p => (d :: p.1, p.2))
        | none =>
          if e = 'u' then
            match rest2 with
            | h1 :: h2 :: h3 :: h4 :: rest3 =>
              match hexVal h1, hexVal h2, hexVal h3, hexVal h4 with
              | some a, some b, some c3, some d =>
                let n := ((a * 16 + b) * 16 + c3) * 16 + d
                let ch := if h : n.isValidChar then Char.ofNatAux n h else '�'
                (jsonString rest3).map (fun p => (ch :: p.1, p.2))
              | _, _, _, _ => none
            | _ => none
          else none
    else if c.toNat < 32 then none
    else (jsonString rest).map (fun p => (c :: p.1, p.2))

/-- Parse a JSON number at the head of the input, returning its lexeme and
the rest, per the `json` module's number regex. -/
def jsonNumber (cs : List Char) : Option (List Char × List Char) :=
  let (sign, cs1) :=
    match cs with
    | '-' :: rest => (['-'], rest)
    | _ => (([] : List Char), cs)
  match cs1 with
  | [] => none
  | d :: _ =>
    if !isAsciiDigit d then none
    else
      let intPart := if d = '0' then [d] else cs1.takeWhile isAsciiDigit
      let cs2 := cs1.drop intPart.length
      let (fracPart, cs3) :=
        match cs2 with
        | '.' :: f :: _ =>
          if isAsciiDigit f then
            let ds := (cs2.drop 1).takeWhile isAsciiDigit
            ('.' :: ds, cs2.drop (1 + ds.length))
          else (([] : List Char), cs2)
        | _ => (([] : List Char), cs2)
      let (expPart, cs4) :=
        match cs3 with
        | e :: tl =>
          if e = 'e' ∨ e = 'E' then
            let (esign, tl2) :=
              match tl with
              | s :: tl' => if s = '+' ∨ s = '-' then ([s], tl') else (([] : List Char), tl)
              | [] => (([] : List Char), tl)
            let ds := tl2.takeWhile isAsciiDigit
            if ds.isEmpty then (([] : List Char), cs3)
            else (e :: (esign ++ ds), tl2.drop ds.length)
          else (([] : List Char), cs3)
        | [] => (([] : List Char), cs3)
      some (sign ++ intPart ++ fracPart ++ expPart, cs4)

mutual

/-- Parse one JSON value at the head of the input (after skipping leading
whitespace), returning it and the unconsumed rest. -/
def jsonValue : Nat → List Char → Option (Value × List Char)
  | 0, _ => none
  | fuel + 1, cs =>
    match skipJsonWs cs with
    | [] => none
    | c :: rest =>
      if c = '{' then
        (jsonObject fuel rest).map (fun p => (Value.dict p.1, p.2))
      else if c = '[' then
        (jsonArray fuel rest).map (fun p => (Value.list p.1, p.2))
      else if c = '"' then
        (jsonString rest).map (fun p => (Value.str (String.mk p.1), p.2))
      else if c = 'n' then
        match rest with
        | 'u' :: 'l' :: 'l' :: r => some (Value.null, r)
        | _ => none
      else if c = 't' then
        match rest with
        | 'r' :: 'u' :: 'e' :: r => some (Value.bool true, r)
        | _ => none
      else if c = 'f' then
        match rest with
        | 'a' :: 'l' :: 's' :: 'e' :: r => some (Value.bool false, r)
        | _ => none
      else if c = '-' ∨ isAsciiDigit c then
        (jsonNumber (c :: rest)).map (fun p => (Value.num (String.mk p.1), p.2))
      else none

/-- Parse the members of a JSON object after its `{`. -/
def jsonObject : Nat → List Char → Option (List (Value × Value) × List Char)
  | 0, _ => none
  | fuel + 1, cs =>
    match skipJsonWs cs with
    | '}' :: rest => some ([], rest)
    | '"' :: rest =>
      match jsonString rest with
      | none => none
      | some (key, rest2) =>
        match skipJsonWs rest2 with
        | ':' :: rest3 =>
          match jsonValue fuel rest3 with
          | none => none
          | some (v, rest4) => jsonMembers fuel (Value.str (String.mk key)) v rest4
        | _ => none
    | _ => none

/-- After one parsed `key : value` member, parse `, members` or `}`. -/
def jsonMembers : Nat → Value → Value → List Char →
    Option (List (Value × Value) × List Char)
  | 0, _, _, _ => none
  | fuel + 1, key, v, cs =>
    match skipJsonWs cs with
    | '}' :: rest => some ([(key, v)], rest)
    | ',' :: rest =>
      match skipJsonWs rest with
      | '"' :: rest2 =>
        match jsonString rest2 with
        | none => none
        | some (key2, rest3) =>
          match skipJsonWs rest3 with
          | ':' :: rest4 =>
            match jsonValue fuel rest4 with
            | none => none
            | some (v2, rest5) =>
              (jsonMembers fuel (Value.str (String.mk key2)) v2 rest5).map
                (fun p => ((key, v) :: p.1, p.2))
          | _ => none
      | _ => none
    | _ => none

/-- Parse the elements of a JSON array after its `[`. -/
def jsonArray : Nat → List Char → Option (List Value × List Char)
  | 0, _ => none
  | fuel + 1, cs =>
    match skipJsonWs cs with
    | ']' :: rest => some ([], rest)
    | _ =>
      match jsonValue fuel cs with
      | none => none
      | some (v, rest2) => jsonElems fuel v rest2

/-- After one parsed array element, parse `, elements` or `]`. -/
def jsonElems : Nat → Value → List Char → Option (List Value × List Char)
  | 0, _, _ => none
  | fuel + 1, v, cs =>
    match skipJsonWs cs with
    | ']' :: rest => some ([v], rest)
    | ',' :: rest =>
      match jsonValue fuel rest with
      | none => none
      | some (v2, rest2) =>
        (jsonElems fuel v2 rest2).map (fun p => (v :: p.1, p.2))
    | _ => none

end

/-- `json.loads(txt)`: parse one value surrounded only by whitespace;
`none` models a raised `json.JSONDecodeError` (including "Extra data" when
characters remain). -/
def json_loads (s : String) : Option Value :=
  match jsonValue (4 * s.data.length + 16) s.data with
  | some (v, rest) => if (skipJsonWs rest).isEmpty then some v else none
  | none => none

/-! ## A model of `ast.literal_eval`

`safe_load_plan` uses `ast.literal_eval` only through
`obj = ast.literal_eval(txt); if isinstance(obj, dict): return obj`, with
every exception swallowed.  The model therefore needs to agree with Python
exactly on which inputs evaluate to a dict and on that dict's value;
inputs Python evaluates to a non-dict (including sets, bytes or
string-prefix forms this model rejects) and inputs on which Python raises
are interchangeable, since both continue to the next rung of the ladder.
Grammar covered: `None`/`True`/`False`, signed int/float literals,
single- or double-quoted strings, lists, tuples, parenthesised grouping
and dicts, with trailing commas. -/

/-- Parse a Python string literal after its opening quote `q`.  An
unknown escape keeps the backslash, as Python does. -/
def pyLitString (q : Char) : List Char → Option (List Char × List Char)
  | [] => none
  | c :: rest =>
    if c = q then some ([], rest)
    else if c = '\n' then none
    else if c = '\\' then
      match rest with
      | [] => none
      | e :: rest2 =>
        let dec : List Char :=
          if e = 'n' then ['\n']
          else if e = 't' then ['\t']
          else if e = 'r' then ['\r']
          else if e = '\\' then ['\\']
          else if e = '\'' then ['\'']
          else if e = '"' then ['"']
          else if e = '0' then ['\x00']
          else ['\\', e]
        (pyLitString q rest2).map (fun p => (dec ++ p.1, p.2))
    else (pyLitString q rest).map (fun p => (c :: p.1, p.2))

/-- Parse a Python numeric literal (after any unary sign): digits with an
optional fractional part and exponent, or a leading-dot float. -/
def pyLitNumber (cs : List Char) : Option (List Char × List Char) :=
  let intPart := cs.takeWhile isAsciiDigit
  let cs1 := cs.drop intPart.length
  let (fracPart, cs2) :=
    match cs1 with
    | '.' :: tl =>
      let ds := tl.takeWhile isAsciiDigit
      ('.' :: ds, tl.drop ds.length)
    | _ => (([] : List Char), cs1)
  if intPart.isEmpty ∧ fracPart.length ≤ 1 then none
  else
    let (expPart, cs3) :=
      match cs2 with
      | e :: tl =>
        if e = 'e' ∨ e = 'E' then
          let (esign, tl2) :=
            match tl with
            | s :: tl' => if s = '+' ∨ s = '-' then ([s], tl') else (([] : List Char), tl)
            | [] => (([] : List Char), tl)
          let ds := tl2.takeWhile isAsciiDigit
          if ds.isEmpty then (([] : List Char), cs2)
          else (e :: (esign ++ ds), tl2.drop ds.length)
        else (([] : List Char), cs2)
      | [] => (([] : List Char), cs2)
    some (intPart ++ fracPart ++ expPart, cs3)

mutual

/-- Parse one Python literal at the head of the input. -/
def pyLitValue : Nat → List Char → Option (Value × List Char)
  | 0, _ => none
  | fuel + 1, cs =>
    match skipJsonWs cs with
    | [] => none
    | c :: rest =>
      if c = 'N' then
        match rest with
        | 'o' :: 'n' :: 'e' :: r => some (Value.null, r)
        | _ => none
      else if c = 'T' then
        match rest with
        | 'r' :: 'u' :: 'e' :: r => some (Value.bool true, r)
        | _ => none
      else if c = 'F' then
        match rest with
        | 'a' :: 'l' :: 's' :: 'e' :: r => some (Value.bool false, r)
        | _ => none
      else if c = '\'' ∨ c = '"' then
        (pyLitString c rest).map (fun p => (Value.str (String.mk p.1), p.2))
      else if c = '-' ∨ c = '+' then
        (pyLitNumber rest).map (fun p => (Value.num (String.mk (c :: p.1)), p.2))
      else if isAsciiDigit c ∨ c = '.' then
        (pyLitNumber (c :: rest)).map (fun p => (Value.num (String.mk p.1), p.2))
      else if c = '[' then
        (pyLitSeq fuel ']' rest).map (fun p => (Value.list p.1, p.2))
      else if c = '(' then
        match skipJsonWs rest with
        | ')' :: r => some (Value.list [], r)
        | _ =>
          match pyLitValue fuel rest with
          | none => none
          | some (v, rest2) =>
            match skipJsonWs rest2 with
            | ')' :: r => some (v, r)
            | ',' :: r => (pyLitSeq fuel ')' r).map (fun p => (Value.list (v :: p.1), p.2))
            | _ => none
      else if c = '{' then
        match skipJsonWs rest with
        | '}' :: r => some (Value.dict [], r)
        | _ =>
          match pyLitValue fuel rest with
          | none => none
          | some (k, rest2) =>
            match skipJsonWs rest2 with
            | ':' :: rest3 =>
              match pyLitValue fuel rest3 with
              | none => none
              | some (v, rest4) => (pyLitDict fuel rest4).map
                  (fun p => (Value.dict ((k, v) :: p.1), p.2))
            | _ => none
      else none

/-- Parse `, item ... close` for list and tuple literals (`close` is `]`
or `)`), allowing a trailing comma. -/
def pyLitSeq : Nat → Char → List Char → Option (List Value × List Char)
  | 0, _, _ => none
  | fuel + 1, close, cs =>
    match skipJsonWs cs with
    | [] => none
    | c :: rest =>
      if c = close then some ([], rest)
      else
        match pyLitValue fuel (c :: rest) with
        | none => none
        | some (v, rest2) =>
          match skipJsonWs rest2 with
          | [] => none
          | d :: rest3 =>
            if d = close then some ([v], rest3)
            else if d = ',' then
              (pyLitSeq fuel close rest3).map (fun p => (v :: p.1, p.2))
            else none

/-- Parse `, key : value ... }` after the first member of a dict literal,
allowing a trailing comma. -/
def pyLitDict : Nat → List Char → Option (List (Value × Value) × List Char)
  | 0, _ => none
  | fuel + 1, cs =>
    match skipJsonWs cs with
    | '}' :: rest => some ([], rest)
    | ',' :: rest =>
      match skipJsonWs rest with
      | '}' :: rest2 => some ([], rest2)
      | _ =>
        match pyLitValue fuel rest with
        | none => none
        | some (k, rest2) =>
          match skipJsonWs rest2 with
          | ':' :: rest3 =>
            match pyLitValue fuel rest3 with
            | none => none
            | some (v, rest4) =>
              (pyLitDict fuel rest4).map (fun p => ((k, v) :: p.1, p.2))
          | _ => none
    | _ => none

end

/-- `ast.literal_eval(txt)`: parse one literal surrounded only by
whitespace; `none` models any raised exception (all are swallowed by the
caller). -/
def literal_eval (s : String) : Option Value :=
  match pyLitValue (4 * s.data.length + 16) s.data with
  | some (v, rest) => if (skipJsonWs rest).isEmpty then some v else none
  | none => none

/-! ## `safe_load_plan` -/

/-- The code-fence preprocessing inside `safe_load_plan`:
`txt = raw.strip()`, then if it starts with three backticks,
`txt = txt.lstrip("` pythonjson").rstrip("`").strip()`.  Note that
`lstrip` removes any run of the *characters* of its argument. -/
def planText (s : String) : String :=
  let txt := pyStripList s.data
  if "```".data.isPrefixOf txt then
    pyStrip (String.mk (pyRStripChars "`".data (pyLStripChars "` pythonjson".data txt)))
  else
    String.mk txt

/-- `safe_load_plan` from `src/utils.py`: robustly turn user/assistant
output into a plan dict.  The Python function returns `None` both on its
explicit failure paths and when `json.loads` itself produces `None`, so
the model returns `Value.null` there; it never raises. -/
def safe_load_plan (raw : Value) : Value :=
  match raw with
  | .dict _ => raw
  | _ =>
    if !raw.truthy then .null
    else
      match raw with
      | .str s =>
        let txt := planText s
        match json_loads txt with
        | some v => v
        | none =>
          match literal_eval txt with
          | some (.dict pairs) => .dict pairs
          | _ =>
            match extract_json_fragment txt with
            | some frag =>
              match json_loads frag with
              | some v => v
              | none => mk_fallback_plan txt
            | none => mk_fallback_plan txt
      | _ => .null

/-! ## Facts about the parser ladder -/

/-- `_mk_fallback_plan` always builds a dict. -/
lemma mk_fallback_plan_isDict (t : String) : ∃ ps, mk_fallback_plan t = Value.dict ps :=
  ⟨_, rfl⟩

/-- A fragment found by `JSON_RE` starts with `{`. -/
lemma jsonFragAux_head {cs f : List Char} (h : jsonFragAux cs = some f) :
    ∃ tl, f = '{' :: tl := by
  induction cs with
  | nil => simp [jsonFragAux] at h
  | cons c rest ih =>
    rw [jsonFragAux] at h
    split at h
    · cases hm : scanToCloseBrace rest with
      | some mid => rw [hm] at h; injection h with h; exact ⟨mid, h.symm⟩
      | none => rw [hm] at h; exact ih h
    · exact ih h

/-- A fragment found by `extract_json_fragment` starts with `{`. -/
lemma extract_json_fragment_head {t fr : String}
    (h : extract_json_fragment t = some fr) : ∃ tl, fr.data = '{' :: tl := by
  unfold extract_json_fragment at h
  cases hj : jsonFragAux t.data with
  | none => rw [hj] at h; simp at h
  | some f =>
    rw [hj] at h
    simp only [Option.map_some'] at h
    obtain ⟨tl, htl⟩ := jsonFragAux_head hj
    injection h with h
    subst h
    exact ⟨tl, htl⟩

/-- A JSON document whose first significant character is `{` can only
parse to an object. -/
lemma jsonValue_brace {fuel : Nat} {cs : List Char} {v : Value} {rest : List Char}
    (h : jsonValue fuel cs = some (v, rest))
    (hb : (skipJsonWs cs).head? = some '{') : ∃ ps, v = Value.dict ps := by
  cases fuel with
  | zero => simp [jsonValue] at h
  | succ f =>
    rw [jsonValue] at h
    cases hws : skipJsonWs cs with
    | nil => rw [hws] at hb; simp at hb
    | cons c r =>
      rw [hws] at hb
      simp only [List.head?_cons] at hb
      injection hb with hb
      subst hb
      simp only [hws, if_true] at h
      rcases Option.map_eq_some'.mp h with ⟨p, _, hv⟩
      exact ⟨p.1, congrArg Prod.fst hv.symm⟩

/-- `json.loads` on a string starting with `{` can only produce a dict. -/
lemma json_loads_brace {fr : String} {tl : List Char} {v : Value}
    (hd : fr.data = '{' :: tl) (h : json_loads fr = some v) :
    ∃ ps, v = Value.dict ps := by
  unfold json_loads at h
  cases hj : jsonValue (4 * fr.data.length + 16) fr.data with
  | none => rw [hj] at h; simp at h
  | some p =>
    obtain ⟨pv, pr⟩ := p
    simp only [hj] at h
    split at h
    · injection h with h
      subst h
      refine jsonValue_brace hj ?_
      rw [hd]
      simp [skipJsonWs, List.dropWhile, isJsonWs]
    · simp at h

/-- Rungs 3 and 4 of the ladder (fragment, then fallback) never produce
`None`: a successful fragment parse is a dict because the fragment starts
with `{`, and the fallback is always a dict. -/
lemma frag_match_ne_null (t : String) :
    (match extract_json_fragment t with
     | some frag =>
       match json_loads frag with
       | some v => v
       | none => mk_fallback_plan t
     | none => mk_fallback_plan t) ≠ Value.null := by
  cases hf : extract_json_fragment t with
  | none =>
    obtain ⟨ps, hps⟩ := mk_fallback_plan_isDict t
    simp [hps]
  | some frag =>
    cases hjf : json_loads frag with
    | none =>
      obtain ⟨ps, hps⟩ := mk_fallback_plan_isDict t
      simp [hjf, hps]
    | some v =>
      obtain ⟨tl, htl⟩ := extract_json_fragment_head hf
      obtain ⟨ps, hps⟩ := json_loads_brace htl hjf
      simp [hjf, hps]

/-- On a non-empty string, `safe_load_plan` runs the four-rung ladder. -/
lemma slp_str_ladder {s : String} (hs : s ≠ "") :
    safe_load_plan (Value.str s) =
      (match json_loads (planText s) with
       | some v => v
       | none =>
         match literal_eval (planText s) with
         | some (.dict pairs) => .dict pairs
         | _ =>
           match extract_json_fragment (planText s) with
           | some frag =>
             match json_loads frag with
             | some v => v
             | none => mk_fallback_plan (planText s)
           | none => mk_fallback_plan (planText s)) := by
  unfold safe_load_plan
  have h0 : (Value.str s).truthy = true := by
    simp only [Value.truthy, Bool.not_eq_true']
    rw [Bool.eq_false_iff]
    simpa [String.isEmpty_iff] using hs
  rw [h0]
  rfl

/-- Once strict JSON parsing has failed on a non-empty string, the
remaining rungs always produce a non-`None` result. -/
lemma slp_str_rest_ne_null {s : String} (hj : json_loads (planText s) = none) (hs : s ≠ "") :
    safe_load_plan (Value.str s) ≠ Value.null := by
  rw [slp_str_ladder hs, hj]
  cases hl : literal_eval (planText s) with
  | none => exact frag_match_ne_null _
  | some lv =>
    cases lv with
    | dict ps => simp
    | null => exact frag_match_ne_null _
    | bool b => exact frag_match_ne_null _
    | num l => exact frag_match_ne_null _
    | str s' => exact frag_match_ne_null _
    | list l => exact frag_match_ne_null _

/-- The exact condition under which `safe_load_plan` returns `None`:
the input is neither a dict nor a non-empty string, or it is a non-empty
string whose preprocessed text strict-JSON-parses to JSON `null`. -/
def slpFailureCondition : Value → Prop
  | .dict _ => False
  | .str s => s = "" ∨ json_loads (planText s) = some Value.null
  | _ => True

/-- A number input always yields `None`. -/
lemma slp_num_eq (l : String) : safe_load_plan (Value.num l) = Value.null := by
  by_cases h : numIsZero l = true <;> simp [safe_load_plan, Value.truthy, h]

/-- A list input always yields `None`. -/
lemma slp_list_eq (items : List Value) : safe_load_plan (Value.list items) = Value.null := by
  by_cases h : items.isEmpty = true <;> simp [safe_load_plan, Value.truthy, h]

/-! ## Claims C2, C4 and C9 about the plan parser -/

/-- Extract `analyses[0].title` from a parse result (used to separate two
concrete parser outputs). -/
def firstTitleStr (v : Value) : Option String :=
  match v.getKey "analyses" with
  | some (.list (a :: _)) =>
    match a.getKey "title" with
    | some (.str t) => some t
    | _ => none
  | _ => none

/-- Builder for a one-analysis fallback plan dict. -/
def mkStepV (s : String) : Value :=
  Value.dict [(Value.str "step", Value.str s)]

/-- Builder for the canonical fallback plan shape. -/
def mkPlanV (title : String) (steps : List String) : Value :=
  Value.dict [(Value.str "analyses", Value.list
    [Value.dict [(Value.str "title", Value.str title),
                 (Value.str "steps", Value.list (steps.map mkStepV))]])]

/-- The input of claim C2. -/
def c2Input : Value := Value.str "1. Do X\n2. Do Y"

/-- The output claim C2 predicts: title "Analysis Plan" and both
enumerated lines as steps. -/
def c2ClaimedOutput : Value := mkPlanV "Analysis Plan" ["Do X", "Do Y"]

/-- The output the code produces: the first line (not matching a heading
marker, so kept verbatim) becomes the title, and only the second
enumerated line becomes a step. -/
def c2ActualOutput : Value := mkPlanV "1. Do X" ["Do Y"]

/-- C2: the claim is false on the code.  `safe_load_plan` applied to
"1. Do X\n2. Do Y" does not return the claimed
analyses/[title "Analysis Plan"; steps "Do X","Do Y"] structure: the two
results differ already in `analyses[0].title`. -/
theorem c2_counterexample : safe_load_plan c2Input ≠ c2ClaimedOutput :=
  fun h => absurd (congrArg firstTitleStr h) (by decide)

/-- C2 (amended): on "1. Do X\n2. Do Y" the fallback synthesis takes the
first non-empty line, "1. Do X", as the plan title (`lstrip("# ")`
removes nothing from it), and each subsequent enumerated line as one
step, so the result is analyses/[title "1. Do X"; steps "Do Y"]. -/
theorem c2_fallback_first_line_title : safe_load_plan c2Input = c2ActualOutput := by rfl

/-- C9: for an input that is already structured (a dict), `safe_load_plan`
returns it unchanged, and hence applying the parser to its own output
yields the same structured result — the idempotent identity path. -/
theorem c9_structured_identity (pairs : List (Value × Value)) :
    safe_load_plan (Value.dict pairs) = Value.dict pairs ∧
      safe_load_plan (safe_load_plan (Value.dict pairs)) = safe_load_plan (Value.dict pairs) :=
  ⟨rfl, rfl⟩

/-- C4: the claim is false on the code.  The integer 1 is a truthy,
non-empty, non-`None` input, yet `safe_load_plan` signals failure
(returns `None`) on it instead of a best-effort structure, because a
truthy value that is neither a dict nor a string falls through to the
final `return None`. -/
theorem c4_counterexample :
    safe_load_plan (Value.num "1") = Value.null ∧ (Value.num "1").truthy = true :=
  ⟨rfl, rfl⟩

/-- C4 (amended): `safe_load_plan` never raises (it is a total function
here, with every library exception caught in the source), and it returns
`None` exactly when the input is neither a dict nor a non-empty string,
or is a non-empty string whose preprocessed text strict-JSON-parses to
JSON `null` (Python's `json.loads` then returns `None` itself, which the
code returns directly).  Dicts are returned unchanged and every other
non-empty string yields a best-effort structure. -/
theorem c4_failure_characterization (raw : Value) :
    safe_load_plan raw = Value.null ↔ slpFailureCondition raw := by
  cases raw with
  | dict pairs => simp [safe_load_plan, slpFailureCondition]
  | null => simp [safe_load_plan, slpFailureCondition, Value.truthy]
  | bool b => cases b <;> simp [safe_load_plan, slpFailureCondition, Value.truthy]
  | num l => simp [slp_num_eq, slpFailureCondition]
  | list items => simp [slp_list_eq, slpFailureCondition]
  | str s =>
    by_cases hs : s = ""
    · subst hs
      simp [slpFailureCondition, show safe_load_plan (Value.str "") = Value.null from rfl]
    · simp only [slpFailureCondition]
      cases hj : json_loads (planText s) with
      | some v => simp [slp_str_ladder hs, hj, hs]
      | none =>
        rw [iff_false_intro (slp_str_rest_ne_null hj hs)]
        simp [hs, hj]

/-! ## Claim C1: the `all_hypotheses_accepted` gate
    (`src/pages/03_Hypotheses_manager.py` with `DEFAULT_STATE` of
    `src/utils.py`)

The page stores the gate in `st.session_state.all_hypotheses_accepted`.
The accept handler recomputes it (setting it only to `True`) after a
successful accept; the chat handler pops the selected record's
`final_hypothesis` but never touches the stored gate. -/

/-- One message of a hypothesis-refinement chat: the assistant messages
also carry `refined_hypothesis_text`. -/
structure RefMsg where
  role : String
  content : String
  refinedText : Option String
deriving DecidableEq

/-- One hypothesis record of `updated_hypotheses["assistant_response"]`.
`finalHypothesis = none` models the `final_hypothesis` key being absent
(never set, or removed by `pop`). -/
structure HypRecord where
  title : String
  refinedWithData : String
  refinedHypothesisText : String
  chatHistory : List RefMsg
  finalHypothesis : Option String
deriving DecidableEq

/-- `h.get('final_hypothesis')` is truthy: the key is present and holds a
non-empty string. -/
def finalTruthy (h : HypRecord) : Bool :=
  match h.finalHypothesis with
  | some s => !s.isEmpty
  | none => false

/-- The session state of the hypotheses-manager page. -/
structure HypSession where
  hyps : List HypRecord
  selectedHypothesis : Nat
  allHypothesesAccepted : Bool
deriving DecidableEq

/-- The user actions of the page.  A chat turn carries the external
assistant call's structured response (`assistant_response` and
`refined_hypothesis_text` of `hyp_refining_chat_response_schema`). -/
inductive HypOp where
  | select (i : Nat)
  | chat (prompt : String) (assistantResponse : String) (refined : String)
  | accept
deriving DecidableEq

/-- Replace the element at index `i` (Python `hypotheses[sel_idx]` is
mutated in place). -/
def setAt (hyps : List HypRecord) (i : Nat) (h : HypRecord) : List HypRecord :=
  hyps.set i h

/-- `accept_current` of `src/pages/03_Hypotheses_manager.py`: requires a
non-empty chat history; `final_hypothesis` becomes the last chat turn's
`refined_hypothesis_text`, falling back to the record's own
`refined_hypothesis_text` when that is falsy (Python `or`). -/
def accept_current (h : HypRecord) : HypRecord :=
  match h.chatHistory.getLast? with
  | none => h
  | some m =>
    let lastRefined :=
      match m.refinedText with
      | some r => if r.isEmpty then h.refinedHypothesisText else r
      | none => h.refinedHypothesisText
    { h with finalHypothesis := some lastRefined }

/-- One run of the page's event handlers for one user action.  The page
body first clamps `selected_hypothesis` to the record count.  The accept
button is disabled while the selected record already has a truthy
`final_hypothesis`; after a successful accept the gate is set to `True`
if (and only then) every record has a truthy `final_hypothesis` — it is
never set back to `False` anywhere.  A chat message pops the selected
record's `final_hypothesis` and appends the user and assistant turns. -/
def hypStep (s : HypSession) (op : HypOp) : HypSession :=
  let s := { s with selectedHypothesis := min s.selectedHypothesis (s.hyps.length - 1) }
  match op with
  | .select i => { s with selectedHypothesis := i }
  | .chat prompt resp refined =>
    match s.hyps.get? s.selectedHypothesis with
    | none => s
    | some h =>
      let h := { h with finalHypothesis := none }
      let h := { h with chatHistory := h.chatHistory ++
        [⟨"user", prompt, none⟩, ⟨"assistant", resp, some refined⟩] }
      { s with hyps := setAt s.hyps s.selectedHypothesis h }
  | .accept =>
    match s.hyps.get? s.selectedHypothesis with
    | none => s
    | some h =>
      if finalTruthy h then s
      else if h.chatHistory.isEmpty then s
      else
        let hyps := setAt s.hyps s.selectedHypothesis (accept_current h)
        { s with
          hyps := hyps
          allHypothesesAccepted :=
            if hyps.all finalTruthy then true else s.allHypothesesAccepted }

/-- The gate value the spec demands at read time:
`all(h.get('final_hypothesis') for h in hypotheses)`. -/
def specGate (s : HypSession) : Bool :=
  s.hyps.all finalTruthy

/-- A fresh two-hypothesis session as produced by the processing stage:
no chat history, no `final_hypothesis`, gate off. -/
def c1Start : HypSession :=
  { hyps :=
      [⟨"H1", "H1 with data", "H1 refined", [], none⟩,
       ⟨"H2", "H2 with data", "H2 refined", [], none⟩]
    selectedHypothesis := 0
    allHypothesesAccepted := false }

/-- Accept both hypotheses, then reopen the first with a new chat
message. -/
def c1Ops : List HypOp :=
  [.chat "p1" "a1" "r1", .accept,
   .select 1, .chat "p2" "a2" "r2", .accept,
   .select 0, .chat "reopen" "a3" "r3"]

/-- C1: the claim is right and the code is wrong.  After both hypotheses
are accepted the stored gate is `True`; a new chat message on record 0
pops its `final_hypothesis`, yet the stored
`st.session_state.all_hypotheses_accepted` is never recomputed or
invalidated on that mutation, so at the next read the gate is still
`True` while not every record's `final_hypothesis` is non-empty — the
stale cached boolean the spec names as the bug class to avoid (and the
still-enabled NEXT STAGE button then lets the plan page crash on the
missing `final_hypothesis` key). -/
theorem c1_gate_stale_after_reopen :
    (c1Ops.foldl hypStep c1Start).allHypothesesAccepted = true ∧
      specGate (c1Ops.foldl hypStep c1Start) = false ∧
      (c1Ops.foldl hypStep c1Start |>.hyps.get? 0 |>.map finalTruthy) = some false := by
  decide

/-! ## Claims C7 and C8: the plan manager
    (`src/pages/04_Plan_manager.py`) -/

/-- One message of `analysis_plan_chat_history`. -/
structure PlanMsg where
  role : String
  content : String
deriving DecidableEq

/-- The plan-related state of one hypothesis record after
`ensure_plan_keys`. -/
structure PlanRecord where
  finalHypothesis : String
  analysisPlanChatHistory : List PlanMsg
  analysisPlan : String
  analysisPlanAccepted : Bool
deriving DecidableEq

/-- `ensure_plan_keys` defaults for a record fresh from the hypothesis
stage. -/
def initPlanRecord (finalHyp : String) : PlanRecord :=
  { finalHypothesis := finalHyp
    analysisPlanChatHistory := []
    analysisPlan := ""
    analysisPlanAccepted := false }

/-- The user actions of the plan-manager page, carrying the external
assistant call's `output_text` where one is made.  `generate` is always
available; the chat box and the accept button are only rendered while
the plan is not accepted, and the edit button only while it is. -/
inductive PlanOp where
  | generate (userPrompt resp : String)
  | chat (userMsg resp : String)
  | acceptPlan
  | editPlan
deriving DecidableEq

/-- One run of the page's handlers for one user action on the selected
record (`src/pages/04_Plan_manager.py`, `main`). -/
def planStep (r : PlanRecord) (op : PlanOp) : PlanRecord :=
  match op with
  | .generate u resp =>
    { r with analysisPlanChatHistory :=
        r.analysisPlanChatHistory ++ [⟨"user", u⟩, ⟨"assistant", resp⟩] }
  | .chat u resp =>
    if r.analysisPlanAccepted then r
    else
      { r with analysisPlanChatHistory :=
          r.analysisPlanChatHistory ++ [⟨"user", u⟩, ⟨"assistant", resp⟩] }
  | .acceptPlan =>
    if r.analysisPlanAccepted then r
    else
      match r.analysisPlanChatHistory.getLast? with
      | none => r
      | some m =>
        { r with analysisPlan := m.content, analysisPlanAccepted := true }
  | .editPlan =>
    if r.analysisPlanAccepted then { r with analysisPlanAccepted := false } else r

/-- The plan structure the execution stage consumes
(`src/pages/05_Plan_execution.py`, `main`): `safe_load_plan` must return
a truthy dict carrying `assistant_response` and
`current_plan_execution`. -/
def execConsumable (v : Value) : Bool :=
  v.truthy && (v.getKey "assistant_response").isSome &&
    (v.getKey "current_plan_execution").isSome

/-- The assistant responses of an action (the plan-generation calls are
JSON-schema constrained to `plan_generation_response_schema`). -/
def planOpResps : PlanOp → List String
  | .generate _ resp => [resp]
  | .chat _ resp => [resp]
  | _ => []

/-- The last chat message, if any, parses to an execution-consumable
plan (an invariant about the history, strengthened for induction). -/
def lastRespOK (r : PlanRecord) : Prop :=
  match r.analysisPlanChatHistory.getLast? with
  | none => True
  | some m => execConsumable (safe_load_plan (Value.str m.content)) = true

/-- The inductive invariant for claim C7. -/
def planInv (r : PlanRecord) : Prop :=
  (r.analysisPlanAccepted = true →
    execConsumable (safe_load_plan (Value.str r.analysisPlan)) = true) ∧ lastRespOK r

/-- Appending a user/assistant pair leaves an OK assistant message
last. -/
lemma lastRespOK_append {r : PlanRecord} {u resp : String}
    (hr : execConsumable (safe_load_plan (Value.str resp)) = true) :
    lastRespOK { r with analysisPlanChatHistory :=
      r.analysisPlanChatHistory ++ [⟨"user", u⟩, ⟨"assistant", resp⟩] } := by
  unfold lastRespOK
  rw [List.getLast?_append_of_ne_nil _ (by simp)]
  simpa using hr

/-- Every page action preserves the invariant, provided the assistant
responses it consumes are schema-conforming. -/
lemma planStep_inv {r : PlanRecord} {op : PlanOp}
    (hop : ∀ resp ∈ planOpResps op, execConsumable (safe_load_plan (Value.str resp)) = true)
    (h : planInv r) : planInv (planStep r op) := by
  obtain ⟨hacc, hlast⟩ := h
  cases op with
  | generate u resp =>
    refine ⟨hacc, ?_⟩
    exact lastRespOK_append (hop resp (by simp [planOpResps]))
  | chat u resp =>
    by_cases hr : r.analysisPlanAccepted = true
    · simp only [planStep, if_pos hr]
      exact ⟨hacc, hlast⟩
    · simp only [planStep, if_neg hr]
      exact ⟨hacc, lastRespOK_append (hop resp (by simp [planOpResps]))⟩
  | acceptPlan =>
    by_cases hr : r.analysisPlanAccepted = true
    · simp only [planStep, if_pos hr]
      exact ⟨hacc, hlast⟩
    · simp only [planStep, if_neg hr]
      cases hl : r.analysisPlanChatHistory.getLast? with
      | none => exact ⟨hacc, hlast⟩
      | some m =>
        unfold lastRespOK at hlast
        rw [hl] at hlast
        exact ⟨fun _ => hlast, by unfold lastRespOK; rw [hl]; exact hlast⟩
  | editPlan =>
    by_cases hr : r.analysisPlanAccepted = true
    · simp only [planStep, if_pos hr]
      exact ⟨by intro h; simp at h, hlast⟩
    · simp only [planStep, if_neg hr]
      exact ⟨hacc, hlast⟩

/-- The invariant holds along any action sequence. -/
lemma foldl_planInv : ∀ (ops : List PlanOp) (r : PlanRecord),
    (∀ op ∈ ops, ∀ resp ∈ planOpResps op,
      execConsumable (safe_load_plan (Value.str resp)) = true) →
    planInv r → planInv (ops.foldl planStep r) := by
  intro ops
  induction ops with
  | nil => intro r _ h; exact h
  | cons op rest ih =>
    intro r hresp h
    exact ih _ (fun o ho => hresp o (by simp [ho]))
      (planStep_inv (hresp op (by simp)) h)

/-- C7: after any sequence of plan-manager actions whose assistant
responses conform to `plan_generation_response_schema` (they parse, via
`safe_load_plan`, to a structure carrying `assistant_response` and
`current_plan_execution`), whenever `analysis_plan_accepted` is true the
stored `analysis_plan` parses to a structure the execution stage
consumes: accepting copies the last (assistant) chat message into
`analysis_plan`, chat and accept are gated off while accepted, and edit
only clears the flag. -/
theorem c7_plan_accepted_parses (fh : String) (ops : List PlanOp)
    (hresp : ∀ op ∈ ops, ∀ resp ∈ planOpResps op,
      execConsumable (safe_load_plan (Value.str resp)) = true)
    (hacc : (ops.foldl planStep (initPlanRecord fh)).analysisPlanAccepted = true) :
    execConsumable (safe_load_plan
      (Value.str (ops.foldl planStep (initPlanRecord fh)).analysisPlan)) = true := by
  have h0 : planInv (initPlanRecord fh) := by
    constructor
    · intro h; simp [initPlanRecord] at h
    · unfold lastRespOK
      simp [initPlanRecord]
  exact (foldl_planInv ops _ hresp h0).1 hacc

/-- A concrete schema-conforming assistant response. -/
def c7Resp : String :=
  "\x7b\"assistant_response\": \"plan text\", \"current_plan_execution\": \"step one\"\x7d"

/-- Generate a plan and accept it. -/
def c7Ops : List PlanOp := [.generate "prompt" c7Resp, .acceptPlan]

/-- C7 witness: generating a plan from a concrete schema-conforming
response and accepting it reaches an accepted state whose stored plan
parses to an execution-consumable structure. -/
theorem c7_witness :
    ((c7Ops.foldl planStep (initPlanRecord "H")).analysisPlanAccepted = true) ∧
      execConsumable (safe_load_plan
        (Value.str (c7Ops.foldl planStep (initPlanRecord "H")).analysisPlan)) = true :=
  ⟨by decide, c7_plan_accepted_parses "H" c7Ops (by decide) (by decide)⟩

/-- C8: the edit-plan action on a record whose plan is accepted resets
`analysis_plan_accepted` to false and changes nothing else — in
particular `analysis_plan` keeps its exact content (the handler is the
single assignment `hypo["analysis_plan_accepted"] = False`). -/
theorem c8_edit_only_clears_accept (r : PlanRecord)
    (h : r.analysisPlanAccepted = true) :
    planStep r .editPlan = { r with analysisPlanAccepted := false } ∧
      (planStep r .editPlan).analysisPlan = r.analysisPlan ∧
      (planStep r .editPlan).analysisPlanChatHistory = r.analysisPlanChatHistory := by
  simp [planStep, h]

/-- A concrete accepted record. -/
def c8Rec : PlanRecord :=
  { finalHypothesis := "H"
    analysisPlanChatHistory := [⟨"user", "p"⟩, ⟨"assistant", "the plan"⟩]
    analysisPlan := "the plan"
    analysisPlanAccepted := true }

/-- C8 witness: editing a concrete accepted record clears only the
accept flag. -/
theorem c8_witness :
    planStep c8Rec .editPlan = { c8Rec with analysisPlanAccepted := false } ∧
      (planStep c8Rec .editPlan).analysisPlan = c8Rec.analysisPlan ∧
      (planStep c8Rec .editPlan).analysisPlanChatHistory = c8Rec.analysisPlanChatHistory :=
  c8_edit_only_clears_accept c8Rec rfl

/-! ## The streaming transcript aggregator
    (`stream_assistant` in `src/pages/05_Plan_execution.py`)

Events are the cases the code's `isinstance` chain distinguishes; the
image bytes come from an external file-store collaborator modelled as a
function `fetch : String → Option (List Nat)` (`none` models
`client.files.content(fid)` raising).  A raised exception is an
`Except.error` carrying the state at the raise point: the local
`assistant_items` list dies with the frame, but the appends already made
to `st.session_state.images` persist. -/

/-- Standard base64 of a byte sequence (`base64.b64encode`). -/
def b64Alphabet : List Char :=
  "ABCDEFGHIJKLMNOPQRSTUVWXYZabcdefghijklmnopqrstuvwxyz0123456789+/".data

/-- The base64 digit for a 6-bit value. -/
def b64CharAt (n : Nat) : Char :=
  b64Alphabet.getD n 'A'

/-- Encode bytes in groups of three, padding with `=`. -/
def b64Chunks : List Nat → List Char
  | a :: b :: c :: rest =>
    let a := a % 256
    let b := b % 256
    let c := c % 256
    b64CharAt (a / 4) :: b64CharAt (a % 4 * 16 + b / 16) ::
      b64CharAt (b % 16 * 4 + c / 64) :: b64CharAt (c % 64) :: b64Chunks rest
  | [a, b] =>
    let a := a % 256
    let b := b % 256
    [b64CharAt (a / 4), b64CharAt (a % 4 * 16 + b / 16), b64CharAt (b % 16 * 4), '=']
  | [a] =>
    let a := a % 256
    [b64CharAt (a / 4), b64CharAt (a % 4 * 16), '=', '=']
  | [] => []

/-- `base64.b64encode(data).decode()`. -/
def b64Encode (bs : List Nat) : String :=
  String.mk (b64Chunks bs)

/-- The inline-HTML rendering of fetched image bytes built by
`stream_assistant`. -/
def mkImageHtml (data : List Nat) : String :=
  "<p align=\"center\"><img src=\"data:image/png;base64," ++ b64Encode data ++
    "\" width=\"600\"></p>"

/-- `str(IMG_DIR / f'<fid>.png')`. -/
def imgPathFor (fid : String) : String :=
  "images/" ++ fid ++ ".png"

/-- The four transcript segment types. -/
inductive SegType where
  | code_input
  | code_output
  | image
  | text
deriving DecidableEq

/-- Segment content: a string for code/log/text segments, a list of
rendered HTML references for image segments. -/
inductive SegContent where
  | txt (s : String)
  | imgs (htmls : List String)
deriving DecidableEq

/-- One transcript segment (`assistant_items` entry).  `file_id` and
`image_path` are the keys assigned only when an image output is
appended. -/
structure Segment where
  ty : SegType
  content : SegContent
  file_id : Option String := none
  image_path : Option String := none
deriving DecidableEq

/-- `'' if tp != 'image' else []`. -/
def emptyContentFor (tp : SegType) : SegContent :=
  if tp = .image then .imgs [] else .txt ""

/-- `ensure_slot(tp)`: open a new segment only when the list is empty or
the last segment's type differs. -/
def ensure_slot (items : List Segment) (tp : SegType) : List Segment :=
  match items.getLast? with
  | some s => if s.ty = tp then items else items ++ [⟨tp, emptyContentFor tp, none, none⟩]
  | none => items ++ [⟨tp, emptyContentFor tp, none, none⟩]

/-- Mutate `assistant_items[-1]` in place. -/
def updateLast (items : List Segment) (f : Segment → Segment) : List Segment :=
  match items with
  | [] => []
  | [s] => [f s]
  | s :: rest => s :: updateLast rest f

/-- `assistant_items[-1]['content'] += t` for string-content segments
(`ensure_slot` guarantees the matching content shape). -/
def contentAppendTxt : SegContent → String → SegContent
  | .txt s, t => .txt (s ++ t)
  | .imgs l, _ => .imgs l

/-- `assistant_items[-1]['content'].append(html)` for image segments. -/
def contentAppendImg : SegContent → String → SegContent
  | .imgs l, h => .imgs (l ++ [h])
  | .txt s, _ => .txt s

/-- `ensure_slot(tp)` followed by `assistant_items[-1]['content'] += t`. -/
def appendTxtSlot (items : List Segment) (tp : SegType) (t : String) : List Segment :=
  updateLast (ensure_slot items tp)
    (fun seg => { seg with content := contentAppendTxt seg.content t })

/-- One code-interpreter output of a completed step. -/
inductive CIOutput where
  | logs (text : String)
  | image (fileId : String)
deriving DecidableEq

/-- The stream events the `isinstance` chain distinguishes.  A
`runStepCompleted` without a tool call behaves as `outputs = []`. -/
inductive StreamEvent where
  | runStepCreated (hasToolCall : Bool)
  | runStepDelta (fragment : String)
  | runStepCompleted (outputs : List CIOutput)
  | messageCreated
  | messageDelta (fragment : String)
deriving DecidableEq

/-- One entry of `st.session_state.images`. -/
structure ImageEntry where
  image_path : String
  file_id : String
  html : String
deriving DecidableEq

/-- The aggregation state: the local `assistant_items` list and the
session-level `images` list. -/
structure StreamAcc where
  items : List Segment
  images : List ImageEntry
deriving DecidableEq

/-- Process one output of a completed step.  A log extends (or opens) a
`code_output` segment; an image is fetched — a failed fetch raises out
of the whole loop (`Except.error`) — then recorded in the session image
list, appended to an `image` segment's content, and its `file_id` and
`image_path` overwrite the segment's previous values. -/
def processOutput (fetch : String → Option (List Nat)) (acc : StreamAcc) :
    CIOutput → Except StreamAcc StreamAcc
  | .logs t => .ok { acc with items := appendTxtSlot acc.items .code_output t }
  | .image fid =>
    match fetch fid with
    | none => .error acc
    | some data =>
      let html := mkImageHtml data
      let path := imgPathFor fid
      let acc := { acc with images := acc.images ++ [ImageEntry.mk path fid html] }
      let newItems :=
        updateLast (ensure_slot acc.items .image)
          (fun seg =>
            { seg with
              content := contentAppendImg seg.content html
              file_id := some fid
              image_path := some path })
      .ok { acc with items := newItems }

/-- Process the outputs of one completed step in order. -/
def processOutputs (fetch : String → Option (List Nat)) (acc : StreamAcc) :
    List CIOutput → Except StreamAcc StreamAcc
  | [] => .ok acc
  | out :: rest =>
    match processOutput fetch acc out with
    | .error a => .error a
    | .ok a => processOutputs fetch a rest

/-- Process one stream event, as the `for event in stream` body does. -/
def processEvent (fetch : String → Option (List Nat)) (acc : StreamAcc) :
    StreamEvent → Except StreamAcc StreamAcc
  | .runStepCreated hasTool =>
    .ok (if hasTool then { acc with items := ensure_slot acc.items .code_input } else acc)
  | .runStepDelta frag =>
    .ok (if frag.isEmpty then acc
         else { acc with items := appendTxtSlot acc.items .code_input frag })
  | .runStepCompleted outs => processOutputs fetch acc outs
  | .messageCreated => .ok { acc with items := ensure_slot acc.items .text }
  | .messageDelta frag => .ok { acc with items := appendTxtSlot acc.items .text frag }

/-- Process an event sequence in order, stopping at the first raised
exception. -/
def processEvents (fetch : String → Option (List Nat)) (acc : StreamAcc) :
    List StreamEvent → Except StreamAcc StreamAcc
  | [] => .ok acc
  | e :: rest =>
    match processEvent fetch acc e with
    | .error a => .error a
    | .ok a => processEvents fetch a rest

/-! ## The execution-page run handler
    (`main` and `stream_assistant` in `src/pages/05_Plan_execution.py`) -/

/-- One entry of `plan_execution_chat_history`: user messages carry
`content`, assistant messages carry `items`. -/
inductive ExecMsg where
  | user (content : String)
  | assistant (items : List Segment)
deriving DecidableEq

/-- The record fields and session flags the run handler touches. -/
structure ExecState where
  planExecutionChatHistory : List ExecMsg
  analysisExecuted : Bool
  acceptAnalysisExecution : Bool
  planExecuted : Bool
  analysisRunning : Bool
  images : List ImageEntry
deriving DecidableEq

/-- The outcome of the external assistant call: either the stream runs
to completion yielding these events, or the call raises after yielding
the given prefix of events. -/
inductive CallOutcome where
  | completed (events : List StreamEvent)
  | failedAfter (events : List StreamEvent)
deriving DecidableEq

/-- The user message appended before the run when a chat prompt
triggered it. -/
def promptMsgs : Option String → List ExecMsg
  | some p => [.user p]
  | none => []

/-- One execution run (`if run_clicked or prompt:` in `main` followed by
`stream_assistant`): `plan_executed` is set, a prompt is appended to the
chat history, `analysis_running` is set, then the stream is consumed.
Only after the loop finishes does the handler append the aggregated
assistant items, set `analysis_executed` and clear `analysis_running`;
an exception anywhere in the stream (external failure or an image fetch
raising) propagates, keeping every mutation made before it. -/
def runExec (fetch : String → Option (List Nat)) (s : ExecState)
    (prompt : Option String) (oc : CallOutcome) : ExecState :=
  let s1 := { s with planExecuted := true }
  let s2 := { s1 with planExecutionChatHistory :=
    s1.planExecutionChatHistory ++ promptMsgs prompt }
  let s3 := { s2 with analysisRunning := true }
  match oc with
  | .failedAfter evs =>
    match processEvents fetch ⟨[], s3.images⟩ evs with
    | .ok acc => { s3 with images := acc.images }
    | .error acc => { s3 with images := acc.images }
  | .completed evs =>
    match processEvents fetch ⟨[], s3.images⟩ evs with
    | .error acc => { s3 with images := acc.images }
    | .ok acc =>
      { s3 with
        images := acc.images
        planExecutionChatHistory :=
          s3.planExecutionChatHistory ++ [ExecMsg.assistant acc.items]
        analysisExecuted := true
        analysisRunning := false }

/-! ## The report-prompt builder
    (`build_report_prompt` in `src/pages/06_Report_builder.py`) -/

/-- The string content of a non-image segment. -/
def contentTextOf : SegContent → String
  | .txt s => s
  | .imgs _ => ""

/-- The prompt parts one transcript item contributes: an image segment
contributes `item['file_id']` and `str(item['image_path'])` — exactly
one identifier per image segment, however many rendered references its
content holds — and any other segment its content.  `none` models the
`KeyError` raised when an image segment lacks the keys. -/
def reportItemParts (item : Segment) : Option (List String) :=
  match item.ty with
  | .image =>
    match item.file_id, item.image_path with
    | some f, some p => some [f, p]
    | _, _ => none
  | _ => some [contentTextOf item.content]

/-- The prompt parts one chat message contributes. -/
def reportMsgParts : ExecMsg → Option (List String)
  | .user c => some [c]
  | .assistant items =>
    items.foldr
      (fun it acc => do
        let ps ← reportItemParts it
        let rest ← acc
        pure (ps ++ rest))
      (some [])

/-- `build_report_prompt()`: the hypothesis titles and transcript parts
joined with single spaces. -/
def buildReportPrompt (hyps : List (String × List ExecMsg)) : Option String :=
  (hyps.foldr
      (fun h acc => do
        let msgParts ← h.2.foldr
          (fun m macc => do
            let ps ← reportMsgParts m
            let rest ← macc
            pure (ps ++ rest))
          (some [])
        let rest ← acc
        pure ((h.1 :: msgParts) ++ rest))
      (some [])).map (String.intercalate " ")

/-! ## Claims C3, C5, C6 and C10 about the streaming pipeline -/

/-- C3: three consecutive code-fragment delta events followed by one
step-completed event carrying a single log output aggregate to exactly
two segments — one `code_input` holding the in-order concatenation of
the three fragments (consecutive events of one type reuse the open
segment instead of producing new ones) and one `code_output` holding the
log text. -/
theorem c3_run_length (fetch : String → Option (List Nat)) (f1 f2 f3 lg : String)
    (imgs0 : List ImageEntry) (h1 : f1 ≠ "") (h2 : f2 ≠ "") (h3 : f3 ≠ "") :
    processEvents fetch ⟨[], imgs0⟩
      [.runStepDelta f1, .runStepDelta f2, .runStepDelta f3,
       .runStepCompleted [.logs lg]] =
      .ok ⟨[⟨.code_input, .txt (f1 ++ f2 ++ f3), none, none⟩,
            ⟨.code_output, .txt lg, none, none⟩], imgs0⟩ := by
  have e1 : f1.isEmpty = false := by rw [Bool.eq_false_iff]; simpa [String.isEmpty_iff] using h1
  have e2 : f2.isEmpty = false := by rw [Bool.eq_false_iff]; simpa [String.isEmpty_iff] using h2
  have e3 : f3.isEmpty = false := by rw [Bool.eq_false_iff]; simpa [String.isEmpty_iff] using h3
  simp [processEvents, processEvent, processOutputs, processOutput,
        appendTxtSlot, ensure_slot, updateLast, emptyContentFor, contentAppendTxt,
        e1, e2, e3]

/-- C3 witness: a concrete three-fragment stream aggregates to the two
expected segments. -/
theorem c3_witness :
    processEvents (fun _ => none) ⟨[], []⟩
      [.runStepDelta "x = ", .runStepDelta "1 + ", .runStepDelta "2",
       .runStepCompleted [.logs "3"]] =
      .ok ⟨[⟨.code_input, .txt ("x = " ++ "1 + " ++ "2"), none, none⟩,
            ⟨.code_output, .txt "3", none, none⟩], []⟩ :=
  c3_run_length (fun _ => none) "x = " "1 + " "2" "3" [] (by decide) (by decide) (by decide)

/-- C5 (amended): when the external call fails at any point mid-stream,
the exception propagates out of `stream_assistant` (no handler exists)
and the mutations already made persist instead of being rolled back:
`analysis_running` is left `True` (which keeps the Run button disabled,
so an in-place retry is impossible), `plan_executed` is left `True`, and
a triggering chat prompt's user message remains appended to
`plan_execution_chat_history`; only the assistant transcript entry and
the `analysis_executed`/`accept_analysis_execution` flags are untouched,
because those are written solely after a completed stream. -/
theorem c5_failure_keeps_partial_mutations (fetch : String → Option (List Nat))
    (s : ExecState) (prompt : Option String) (evs : List StreamEvent) :
    (runExec fetch s prompt (.failedAfter evs)).analysisExecuted = s.analysisExecuted ∧
      (runExec fetch s prompt (.failedAfter evs)).acceptAnalysisExecution =
        s.acceptAnalysisExecution ∧
      (runExec fetch s prompt (.failedAfter evs)).analysisRunning = true ∧
      (runExec fetch s prompt (.failedAfter evs)).planExecuted = true ∧
      (runExec fetch s prompt (.failedAfter evs)).planExecutionChatHistory =
        s.planExecutionChatHistory ++ promptMsgs prompt := by
  unfold runExec
  cases hpe : processEvents fetch ⟨[], s.images⟩ evs <;> simp [hpe]

/-- A quiescent execution state before a run is triggered. -/
def c5Start : ExecState :=
  { planExecutionChatHistory := []
    analysisExecuted := false
    acceptAnalysisExecution := false
    planExecuted := false
    analysisRunning := false
    images := [] }

/-- C5: the claim is false on the code.  An external failure directly
after a chat-triggered run starts leaves the workflow state different
from the pre-run state in `analysis_running`, `plan_executed` and the
chat history, so the state is not "left exactly as it was". -/
theorem c5_counterexample :
    (runExec (fun _ => none) c5Start (some "run it") (.failedAfter [])).analysisRunning ≠
        c5Start.analysisRunning ∧
      (runExec (fun _ => none) c5Start (some "run it") (.failedAfter [])).planExecuted ≠
        c5Start.planExecuted ∧
      (runExec (fun _ => none) c5Start (some "run it")
          (.failedAfter [])).planExecutionChatHistory ≠
        c5Start.planExecutionChatHistory := by
  decide

/-- C6 (amended): an image whose bytes cannot be fetched raises out of
the aggregation loop (`client.files.content` is not guarded): no
failure-noting segment is produced, every segment aggregated before the
failure is discarded with the local `assistant_items` list, and the
record's transcript receives no assistant entry — it is updated only
after a fully successful stream.  Session images fetched before the
failure do persist. -/
theorem c6_fetch_failure_aborts (fetch : String → Option (List Nat)) (s : ExecState)
    (prompt : Option String) (evs : List StreamEvent) (acc : StreamAcc)
    (herr : processEvents fetch ⟨[], s.images⟩ evs = .error acc) :
    runExec fetch s prompt (.completed evs) =
      { s with
        planExecuted := true
        planExecutionChatHistory := s.planExecutionChatHistory ++ promptMsgs prompt
        analysisRunning := true
        images := acc.images } := by
  unfold runExec
  simp [herr]

/-- A stream whose completed step carries a log and then an image whose
bytes cannot be fetched. -/
def c6Events : List StreamEvent :=
  [.runStepDelta "x = 1", .runStepCompleted [.logs "ok", .image "file-9"]]

/-- The aggregation state at the moment the fetch of `file-9` raises:
two segments had already been aggregated. -/
def c6ErrAcc : StreamAcc :=
  ⟨[⟨.code_input, .txt "x = 1", none, none⟩, ⟨.code_output, .txt "ok", none, none⟩], []⟩

/-- C6: the claim is false on the code.  With every fetch failing, the
aggregation of `c6Events` raises after two segments were aggregated, yet
the record's transcript stays empty: the prior segments are not
preserved and no failure-noting segment exists. -/
theorem c6_counterexample :
    processEvents (fun _ => none) ⟨[], []⟩ c6Events = .error c6ErrAcc ∧
      c6ErrAcc.items.length = 2 ∧
      (runExec (fun _ => none) c5Start none (.completed c6Events)).planExecutionChatHistory =
        [] :=
  ⟨rfl, rfl, rfl⟩

/-- C6 witness: the amended statement at the concrete aborting stream. -/
theorem c6_witness :
    processEvents (fun _ => none) ⟨[], c5Start.images⟩ c6Events = .error c6ErrAcc ∧
      runExec (fun _ => none) c5Start none (.completed c6Events) =
        { c5Start with
          planExecuted := true
          planExecutionChatHistory := c5Start.planExecutionChatHistory ++ promptMsgs none
          analysisRunning := true
          images := c6ErrAcc.images } :=
  ⟨rfl, c6_fetch_failure_aborts (fun _ => none) c5Start none c6Events c6ErrAcc rfl⟩

/-- C10: a completed step carrying two image outputs (both fetchable)
yields one single `image` segment whose content holds both rendered HTML
references in order, while the segment's `file_id` and `image_path`
fields hold only the second (last) image's identifier and path — each
image output overwrites them — and the report builder extracts exactly
that one `file_id` (and path) from the segment. -/
theorem c10_multi_image_single_segment (fetch : String → Option (List Nat))
    (fid1 fid2 : String) (d1 d2 : List Nat)
    (h1 : fetch fid1 = some d1) (h2 : fetch fid2 = some d2) :
    processEvents fetch ⟨[], []⟩ [.runStepCompleted [.image fid1, .image fid2]] =
        .ok ⟨[⟨.image, .imgs [mkImageHtml d1, mkImageHtml d2],
               some fid2, some (imgPathFor fid2)⟩],
             [⟨imgPathFor fid1, fid1, mkImageHtml d1⟩,
              ⟨imgPathFor fid2, fid2, mkImageHtml d2⟩]⟩ ∧
      reportMsgParts (.assistant [⟨.image, .imgs [mkImageHtml d1, mkImageHtml d2],
          some fid2, some (imgPathFor fid2)⟩]) = some [fid2, imgPathFor fid2] := by
  constructor
  · simp [processEvents, processEvent, processOutputs, processOutput,
          ensure_slot, updateLast, emptyContentFor, contentAppendImg, h1, h2]
  · simp [reportMsgParts, reportItemParts]

/-- A file store holding bytes for two image ids. -/
def c10Fetch : String → Option (List Nat) :=
  fun f => if f = "file-a" then some [0, 1, 2] else if f = "file-b" then some [3] else none

/-- C10 witness: the two-image aggregation at concrete ids and bytes. -/
theorem c10_witness :
    processEvents c10Fetch ⟨[], []⟩ [.runStepCompleted [.image "file-a", .image "file-b"]] =
        .ok ⟨[⟨.image, .imgs [mkImageHtml [0, 1, 2], mkImageHtml [3]],
               some "file-b", some (imgPathFor "file-b")⟩],
             [⟨imgPathFor "file-a", "file-a", mkImageHtml [0, 1, 2]⟩,
              ⟨imgPathFor "file-b", "file-b", mkImageHtml [3]⟩]⟩ ∧
      reportMsgParts (.assistant [⟨.image, .imgs [mkImageHtml [0, 1, 2], mkImageHtml [3]],
          some "file-b", some (imgPathFor "file-b")⟩]) =
        some ["file-b", imgPathFor "file-b"] :=
  c10_multi_image_single_segment c10Fetch "file-a" "file-b" [0, 1, 2] [3] rfl rfl
